import Mathlib

/-!
Shallow embedding of the voicemode Audio Manager core
(`voice_mode/audio_manager/{queue,player,service}.py`).

Wall-clock readings (`time.time()` results) are modelled as integer counts
of microseconds — the effective resolution of `time.time()` for current
epochs — so all concrete states evaluate by kernel reduction.  The
second-valued constants of the source (`RESERVATION_TIMEOUT = 30.0`,
chime cooldown `60.0`) are scaled accordingly.  Python byte strings are
modelled as `List Nat`; item ids (unique time-derived strings in the
source) are modelled as `Nat`.
-/

namespace VoiceMode

/-- One second, in wall-clock units (`time.time()` readings are modelled
as integer counts of microseconds). -/
def SECOND : ℤ := 1000000

/-- `Priority(IntEnum)`: HIGH = 0, NORMAL = 1, LOW = 2 (lower plays first). -/
def Priority.HIGH : ℕ := 0
def Priority.NORMAL : ℕ := 1
def Priority.LOW : ℕ := 2

/-- `QueueItem` dataclass from `queue.py`.  `audio_data = none` means the
slot is pending.  `@dataclass(order=True)` compares only the fields marked
`compare=True`, i.e. `(priority, reservation_time)`. -/
structure QueueItem where
  priority : ℕ
  reservation_time : ℤ
  audio_data : Option (List Nat) := none
  sample_rate : Nat := 24000
  project : String := "unknown"
  item_id : Nat
deriving DecidableEq, Repr

namespace QueueItem

/-- `QueueItem.is_ready`: audio data is present. -/
def is_ready (it : QueueItem) : Prop := it.audio_data.isSome

instance (it : QueueItem) : Decidable it.is_ready := by
  unfold is_ready; infer_instance

/-- The dataclass comparison key `(priority, reservation_time)` coincides:
`__eq__` generated by `@dataclass(order=True)` compares only these fields. -/
def sameKey (a b : QueueItem) : Prop :=
  a.priority = b.priority ∧ a.reservation_time = b.reservation_time

instance (a b : QueueItem) : Decidable (sameKey a b) := by
  unfold sameKey; infer_instance

/-- Strict comparison generated by `@dataclass(order=True)`:
lexicographic on `(priority, reservation_time)`. -/
def keyLt (a b : QueueItem) : Prop :=
  a.priority < b.priority ∨
    (a.priority = b.priority ∧ a.reservation_time < b.reservation_time)

instance (a b : QueueItem) : Decidable (keyLt a b) := by
  unfold keyLt; infer_instance

end QueueItem

open QueueItem

/-- Helper for `sortedHead`: fold keeping the leftmost strictly-smallest item. -/
def sortedHeadAux (x : QueueItem) : List QueueItem → QueueItem
  | [] => x
  | y :: ys => if keyLt y x then sortedHeadAux y ys else sortedHeadAux x ys

/-- `sorted(self._items)[0]`: Python's `sorted` is stable, so the head of the
sorted list is the leftmost item whose `(priority, reservation_time)` key is
minimal.  Only the head of the sorted list is ever used by the source. -/
def sortedHead : List QueueItem → Option QueueItem
  | [] => none
  | x :: xs => some (sortedHeadAux x xs)

/-- `self._items.remove(item)`: Python `list.remove` deletes the first
element `==` to the argument, and the dataclass `__eq__` compares only the
`(priority, reservation_time)` key. -/
def pyRemove : List QueueItem → QueueItem → List QueueItem
  | [], _ => []
  | x :: xs, it => if sameKey x it then xs else x :: pyRemove xs it

/-- State of an `AudioQueue` instance.  `items_by_id` is the key list of the
`_items_by_id` dict in insertion order (its values are the queue items
carrying those ids). -/
structure AudioQueue where
  items : List QueueItem := []
  items_by_id : List Nat := []
  total_enqueued : Nat := 0
  total_played : Nat := 0
deriving DecidableEq, Repr

/-- `AudioQueue()` initial state. -/
def AudioQueue.init : AudioQueue := {}

namespace AudioQueue

/-- `RESERVATION_TIMEOUT = 30.0` seconds, in timestamp units. -/
def RESERVATION_TIMEOUT : ℤ := 30 * SECOND

/-- `BYTES_PER_SECOND = 48000`. -/
def BYTES_PER_SECOND : Nat := 48000

/-- Result dict of `AudioQueue.reserve`. -/
structure ReserveResult where
  reserved : Bool
  item_id : Nat
  position : Nat
deriving DecidableEq, Repr

/-- `AudioQueue.reserve`: append a pending item, index it, return the
1-indexed length of `_items` as `position`.  `now` is the `time.time()`
reading, `id` the generated unique item id. -/
def reserve (s : AudioQueue) (project : String) (priority : ℕ)
    (now : ℤ) (id : Nat) : ReserveResult × AudioQueue :=
  let item : QueueItem :=
    { priority := priority, reservation_time := now, audio_data := none,
      project := project, item_id := id }
  let s' : AudioQueue :=
    { s with items := s.items ++ [item],
             items_by_id := s.items_by_id ++ [id],
             total_enqueued := s.total_enqueued + 1 }
  ({ reserved := true, item_id := id, position := s'.items.length }, s')

/-- Result dict of `AudioQueue.fill`. -/
structure FillResult where
  filled : Bool
  error : Option String := none
deriving DecidableEq, Repr

/-- `AudioQueue.fill`: look the id up in `_items_by_id`; if absent return
the "Item not found or expired" error, else attach the audio to that item
(the dict values alias the list entries, so the item in `_items` is
updated in place). -/
def fill (s : AudioQueue) (id : Nat) (audio : List Nat) (rate : Nat) :
    FillResult × AudioQueue :=
  if id ∈ s.items_by_id then
    ({ filled := true },
     { s with items := s.items.map fun it =>
         if it.item_id = id then
           { it with audio_data := some audio, sample_rate := rate }
         else it })
  else
    ({ filled := false, error := some "Item not found or expired" }, s)

/-- `_estimate_wait_ms`: sum the audio bytes of all but the newest item and
convert to milliseconds (`int` truncation of a nonnegative float is floor). -/
def estimate_wait_ms (items : List QueueItem) : Nat :=
  let total_bytes := (items.dropLast.map fun it =>
    (it.audio_data.getD []).length).sum
  total_bytes * 1000 / BYTES_PER_SECOND

/-- Result dict of `AudioQueue.enqueue`. -/
structure EnqueueResult where
  queued : Bool
  position : Nat
  estimated_wait_ms : Nat
  item_id : Nat
deriving DecidableEq, Repr

/-- `AudioQueue.enqueue`: reserve-and-fill in one call. -/
def enqueue (s : AudioQueue) (audio : List Nat) (rate : Nat)
    (project : String) (priority : ℕ) (now : ℤ) (id : Nat) :
    EnqueueResult × AudioQueue :=
  let item : QueueItem :=
    { priority := priority, reservation_time := now,
      audio_data := some audio, sample_rate := rate,
      project := project, item_id := id }
  let s' : AudioQueue :=
    { s with items := s.items ++ [item],
             items_by_id := s.items_by_id ++ [id],
             total_enqueued := s.total_enqueued + 1 }
  ({ queued := true, position := s'.items.length,
     estimated_wait_ms := estimate_wait_ms s'.items, item_id := id }, s')

/-- Remove `it` (a sorted-head item) from both structures, as the source's
`self._items.remove(it); del self._items_by_id[it.item_id]`. -/
def removeItem (s : AudioQueue) (it : QueueItem) : AudioQueue :=
  { s with items := pyRemove s.items it,
           items_by_id := s.items_by_id.erase it.item_id }

/-- `AudioQueue.dequeue` at wall-clock `now`.  The bounded condition-variable
wait is modelled sequentially: no concurrent `fill` runs during the wait, so
the post-wait recheck sees the same still-pending item and the call returns
`None` leaving the state unchanged. -/
def dequeue (s : AudioQueue) (now : ℤ) : Option QueueItem × AudioQueue :=
  match sortedHead s.items with
  | none => (none, s)
  | some next =>
    if next.is_ready then
      (some next,
       { removeItem s next with total_played := s.total_played + 1 })
    else if now - next.reservation_time > RESERVATION_TIMEOUT then
      match sortedHead (removeItem s next).items with
      | some cand =>
        if cand.is_ready then
          (some cand,
           { removeItem (removeItem s next) cand with
             total_played := (removeItem s next).total_played + 1 })
        else (none, removeItem s next)
      | none => (none, removeItem s next)
    else
      (none, s)

/-- `AudioQueue.peek`. -/
def peek (s : AudioQueue) : Option QueueItem := sortedHead s.items

/-- `AudioQueue.clear`: with `none`, drop everything; with `some p`, collect
the items whose `project == p` and `list.remove` each of them in turn
(deleting their ids from the dict). -/
def clear (s : AudioQueue) (project : Option String) : Nat × AudioQueue :=
  match project with
  | none =>
    (s.items.length, { s with items := [], items_by_id := [] })
  | some p =>
    let items_to_remove := s.items.filter fun it => it.project = p
    (items_to_remove.length,
     items_to_remove.foldl (fun st it =>
       { st with items := pyRemove st.items it,
                 items_by_id := st.items_by_id.erase it.item_id }) s)

/-- Status dict of `AudioQueue.get_status` (queue fields). -/
structure QueueStatus where
  queue_length : Nat
  pending_reservations : Nat
  total_enqueued : Nat
  total_played : Nat
  estimated_wait_ms : Nat
deriving DecidableEq, Repr

/-- `AudioQueue.get_status`. -/
def get_status (s : AudioQueue) : QueueStatus :=
  { queue_length := s.items.length,
    pending_reservations := (s.items.filter fun it => ¬ it.is_ready).length,
    total_enqueued := s.total_enqueued,
    total_played := s.total_played,
    estimated_wait_ms := if s.items.isEmpty then 0
                         else estimate_wait_ms s.items }

end AudioQueue

/-- State of an `AudioPlaybackManager` instance (`player.py`).  The audio
stream and chunk queue are device-side resources that carry no
claim-relevant state beyond these flags. -/
structure AudioPlaybackManager where
  is_playing : Bool := false
  is_paused : Bool := false
  current_project : Option String := none
deriving DecidableEq, Repr

/-- `AudioPlaybackManager()` initial state. -/
def AudioPlaybackManager.init : AudioPlaybackManager := {}

namespace AudioPlaybackManager

/-- `AudioPlaybackManager.pause`: always sets `_is_paused = True` and
returns `True`, even when nothing is playing. -/
def pause (p : AudioPlaybackManager) : Bool × AudioPlaybackManager :=
  (true, { p with is_paused := true })

/-- `AudioPlaybackManager.resume`: always sets `_is_paused = False` and
returns `True`. -/
def resume (p : AudioPlaybackManager) : Bool × AudioPlaybackManager :=
  (true, { p with is_paused := false })

/-- `AudioPlaybackManager.stop`: returns `False` untouched when nothing is
playing; otherwise tears the stream down and resets `_is_playing`,
`_is_paused` and `_current_project`. -/
def stop (p : AudioPlaybackManager) : Bool × AudioPlaybackManager :=
  if p.is_playing then
    (true, { p with is_playing := false, is_paused := false,
                    current_project := none })
  else
    (false, p)

/-- Net state effect of a completed blocking `AudioPlaybackManager.play`
call: it sets `_is_playing`/`_current_project` for the duration and clears
them again on both the success and the exception path; `_is_paused` is
never touched. -/
def play (p : AudioPlaybackManager) (_audio : List Nat) (_rate : Nat)
    (_project : String) : AudioPlaybackManager :=
  { p with is_playing := false, current_project := none }

/-- The transient state observable while `play` is blocked inside the
stream (between setting and clearing `_is_playing`). -/
def playing (p : AudioPlaybackManager) (project : String) :
    AudioPlaybackManager :=
  { p with is_playing := true, current_project := some project }

end AudioPlaybackManager

/-- An entry of the `_item_events` dict: item id ↦ whether the
`asyncio.Event` has been set. -/
abbrev EventMap := List (Nat × Bool)

/-- Dict assignment `self._item_events[id] = asyncio.Event()`. -/
def EventMap.register (m : EventMap) (id : Nat) : EventMap :=
  (id, false) :: m.filter fun e => e.1 ≠ id

/-- `event.set()` on the entry for `id`, when present. -/
def EventMap.signal (m : EventMap) (id : Nat) : EventMap :=
  m.map fun e => if e.1 = id then (e.1, true) else e

/-- State of an `AudioManagerService` instance (`service.py`). -/
structure AudioManagerService where
  queue : AudioQueue := AudioQueue.init
  player : AudioPlaybackManager := AudioPlaybackManager.init
  dictation_active : Bool := false
  item_events : EventMap := []
  last_chime_time : ℤ := 0
  chime_cooldown : ℤ := 60 * SECOND
deriving DecidableEq, Repr

/-- `AudioManagerService(...)` initial state. -/
def AudioManagerService.init : AudioManagerService := {}

namespace AudioManagerService

/-- `AudioManagerService.queue_audio`: enqueue the ready item and register
its completion event. -/
def queue_audio (st : AudioManagerService) (audio : List Nat) (rate : Nat)
    (project : String) (priority : ℕ) (now : ℤ) (id : Nat) :
    AudioQueue.EnqueueResult × AudioManagerService :=
  ((st.queue.enqueue audio rate project priority now id).1,
   { st with queue := (st.queue.enqueue audio rate project priority now id).2,
             item_events := st.item_events.register
               (st.queue.enqueue audio rate project priority now id).1.item_id })

/-- `AudioManagerService.pause` delegates to the player. -/
def pause (st : AudioManagerService) : Bool × AudioManagerService :=
  (st.player.pause.1, { st with player := st.player.pause.2 })

/-- `AudioManagerService.resume` delegates to the player. -/
def resume (st : AudioManagerService) : Bool × AudioManagerService :=
  (st.player.resume.1, { st with player := st.player.resume.2 })

/-- `AudioManagerService.stop` delegates to the player. -/
def stop (st : AudioManagerService) : Bool × AudioManagerService :=
  (st.player.stop.1, { st with player := st.player.stop.2 })

/-- `AudioManagerService.clear_queue` delegates to the queue. -/
def clear_queue (st : AudioManagerService) (project : Option String) :
    Nat × AudioManagerService :=
  ((st.queue.clear project).1, { st with queue := (st.queue.clear project).2 })

/-- `_on_hotkey_press`: dictation starts, the player pauses. -/
def on_hotkey_press (st : AudioManagerService) : AudioManagerService :=
  { st with dictation_active := true, player := st.player.pause.2 }

/-- `_on_hotkey_release`: dictation ends, the player resumes. -/
def on_hotkey_release (st : AudioManagerService) : AudioManagerService :=
  { st with dictation_active := false, player := st.player.resume.2 }

/-- Result dict of `AudioManagerService.reserve_slot`. -/
structure ReserveSlotResult where
  reserved : Bool
  item_id : Nat
  position : Nat
  should_announce : Bool
deriving DecidableEq, Repr

/-- The `for item in self.queue._items` loop of `reserve_slot`: scan the
queue list in insertion order, stop at our own item id, and report whether
a different project was seen first. -/
def differentProjectBefore (items : List QueueItem) (id : Nat)
    (project : String) : Bool :=
  match items with
  | [] => false
  | it :: rest =>
    if it.item_id = id then false
    else if it.project ≠ project then true
    else differentProjectBefore rest id project

/-- Python truthiness test `if current_project and current_project != project`:
`None` and the empty string are falsy. -/
def truthyDifferent (current_project : Option String) (project : String) :
    Bool :=
  match current_project with
  | none => false
  | some c => c ≠ "" && c ≠ project

/-- `AudioManagerService.reserve_slot`: reserve in the queue, register a
completion event, then compute `should_announce` by first checking the
player's current project and, failing that, scanning the queue list up to
the newly-inserted item. -/
def reserve_slot (st : AudioManagerService) (project : String)
    (priority : ℕ) (now : ℤ) (id : Nat) :
    ReserveSlotResult × AudioManagerService :=
  ({ reserved := (st.queue.reserve project priority now id).1.reserved,
     item_id := (st.queue.reserve project priority now id).1.item_id,
     position := (st.queue.reserve project priority now id).1.position,
     should_announce :=
       truthyDifferent st.player.current_project project ||
         differentProjectBefore (st.queue.reserve project priority now id).2.items
           (st.queue.reserve project priority now id).1.item_id project },
   { st with queue := (st.queue.reserve project priority now id).2,
             item_events := st.item_events.register
               (st.queue.reserve project priority now id).1.item_id })

/-- `AudioManagerService.fill_slot` delegates to the queue. -/
def fill_slot (st : AudioManagerService) (id : Nat) (audio : List Nat)
    (rate : Nat) : AudioQueue.FillResult × AudioManagerService :=
  ((st.queue.fill id audio rate).1,
   { st with queue := (st.queue.fill id audio rate).2 })

/-- Result dict of `AudioManagerService.check_chime_allowed`. -/
structure ChimeResult where
  allowed : Bool
  seconds_remaining : ℤ
deriving DecidableEq, Repr

/-- One tenth of a second, in timestamp units. -/
def TENTH : ℤ := SECOND / 10

/-- Python `round(x, 1)` on the remaining cooldown: round to the nearest
tenth of a second, ties to the even multiple (banker's rounding). -/
def round1 (x : ℤ) : ℤ :=
  let q := x / TENTH
  let r := x % TENTH
  if 2 * r < TENTH then TENTH * q
  else if 2 * r > TENTH then TENTH * (q + 1)
  else if Even q then TENTH * q else TENTH * (q + 1)

/-- `AudioManagerService.check_chime_allowed` at wall-clock `now`: permit
and record when the cooldown has elapsed, otherwise report the rounded
remaining time and leave the state unchanged. -/
def check_chime_allowed (st : AudioManagerService) (now : ℤ) :
    ChimeResult × AudioManagerService :=
  if now - st.last_chime_time ≥ st.chime_cooldown then
    ({ allowed := true, seconds_remaining := 0 },
     { st with last_chime_time := now })
  else
    ({ allowed := false,
       seconds_remaining :=
         round1 (st.chime_cooldown - (now - st.last_chime_time)) }, st)

/-- `AudioManagerService.wait_for_item`, modelled sequentially: an id with
no registered event is treated as already completed; a registered event
that is already set completes immediately; an unset event has no concurrent
setter in the sequential model, so the call blocks until its own timeout
and returns `False`. -/
def wait_for_item (st : AudioManagerService) (id : Nat) : Bool :=
  match st.item_events.lookup id with
  | none => true
  | some isSet => isSet

/-- `_cleanup_item_event`: the delayed `pop` of an item's event. -/
def cleanup_item_event (st : AudioManagerService) (id : Nat) :
    AudioManagerService :=
  { st with item_events := st.item_events.filter fun e => e.1 ≠ id }

/-- One iteration of `_playback_loop` at wall-clock `now`: dequeue; if an
item arrives, play it to completion and set its completion event.  The
deferred event cleanup task is not part of the iteration's immediate
effect. -/
def playback_step (st : AudioManagerService) (now : ℤ) :
    Option QueueItem × AudioManagerService :=
  match (st.queue.dequeue now).1 with
  | none => (none, { st with queue := (st.queue.dequeue now).2 })
  | some item =>
    (some item,
     { st with queue := (st.queue.dequeue now).2,
               player := st.player.play (item.audio_data.getD [])
                 item.sample_rate item.project,
               item_events := st.item_events.signal item.item_id })

end AudioManagerService

/-! ### Interleaved histories of queue operations

The queue lock serialises `reserve`/`enqueue`/`fill`/`dequeue`/`clear`
calls, so a concurrent history is a sequence of atomic queue operations.
`Op` records one lock acquisition; time-stamped operations carry the
`time.time()` reading observed inside the critical section. -/
inductive Op where
  | reserve (project : String) (priority : ℕ) (now : ℤ) (id : Nat)
  | enqueue (audio : List Nat) (rate : Nat) (project : String)
      (priority : ℕ) (now : ℤ) (id : Nat)
  | fill (id : Nat) (audio : List Nat) (rate : Nat)
  | dequeue (now : ℤ)
  | clear (project : Option String)
deriving DecidableEq, Repr

/-- Effect of one serialised queue operation; `dequeue` is the only
operation that hands an item to the playback worker. -/
def stepOp (s : AudioQueue) : Op → Option QueueItem × AudioQueue
  | .reserve p pr now id => (none, (s.reserve p pr now id).2)
  | .enqueue a r p pr now id => (none, (s.enqueue a r p pr now id).2)
  | .fill id a r => (none, (s.fill id a r).2)
  | .dequeue now => s.dequeue now
  | .clear p => (none, (s.clear p).2)

/-- Run a history from a state, collecting the dequeued (played) items in
order. -/
def run (s : AudioQueue) : List Op → AudioQueue × List QueueItem
  | [] => (s, [])
  | op :: ops =>
    let step := stepOp s op
    let rest := run step.2 ops
    (rest.1, step.1.toList ++ rest.2)

/-- The `time.time()` reading of an operation, when it takes one. -/
def opTime : Op → Option ℤ
  | .reserve _ _ now _ => some now
  | .enqueue _ _ _ _ now _ => some now
  | .dequeue now => some now
  | _ => none

/-- The wall clock never runs backwards: the time readings along the
history are nondecreasing, all at least `t`. -/
def timesMonoFrom (t : ℤ) : List Op → Bool
  | [] => true
  | op :: ops =>
    match opTime op with
    | none => timesMonoFrom t ops
    | some u => decide (t ≤ u) && timesMonoFrom u ops

/-- The immutable identity of a queue item: everything `fill` cannot
change. -/
def core (it : QueueItem) : Nat × ℕ × ℤ :=
  (it.item_id, it.priority, it.reservation_time)

/-- The core of the item inserted by an operation, if it inserts one. -/
def opInsertCore : Op → Option (Nat × ℕ × ℤ)
  | .reserve _ pr now id => some (id, pr, now)
  | .enqueue _ _ _ pr now id => some (id, pr, now)
  | _ => none

/-- Modelled from the spec: the 1-indexed rank of an item in the queue's
scheduling order (priority ascending, then reservation_time ascending) —
one more than the number of queued items ordered strictly before it.  For
distinct comparison keys this is the position a stable sort gives the
item.  Used to compare the spec's reading of `position` against the value
`reserve` actually returns. -/
def scheduleRank (items : List QueueItem) (it : QueueItem) : Nat :=
  1 + items.countP fun y => decide (keyLt y it)

/-! ### Concrete states used to witness the theorems -/

/-- A two-client history: both slots reserved in order, the second slot's
audio arrives first, then the worker drains the queue. -/
def c1demo_ops : List Op :=
  [.reserve "a" Priority.NORMAL 1000000 1,
   .reserve "b" Priority.NORMAL 2000000 2,
   .fill 2 [7, 7] 24000,
   .fill 1 [9] 24000,
   .dequeue 3000000,
   .dequeue 4000000]

def c1demo_A : QueueItem :=
  { priority := 1, reservation_time := 1000000, audio_data := some [9],
    sample_rate := 24000, project := "a", item_id := 1 }

def c1demo_B : QueueItem :=
  { priority := 1, reservation_time := 2000000, audio_data := some [7, 7],
    sample_rate := 24000, project := "b", item_id := 2 }

/-- A service holding one PENDING reservation (made at time 0) whose
completion event is registered and unset. -/
def c2demo : AudioManagerService :=
  { queue := { items := [{ priority := 1, reservation_time := 0,
                           audio_data := none, sample_rate := 24000,
                           project := "a", item_id := 1 }],
               items_by_id := [1], total_enqueued := 1, total_played := 0 },
    item_events := [(1, false)] }

def c2demo_item : QueueItem :=
  { priority := 1, reservation_time := 0, audio_data := none,
    sample_rate := 24000, project := "a", item_id := 1 }

/-- A queue with one NORMAL reservation. -/
def c3demo_q1 : AudioQueue :=
  (AudioQueue.init.reserve "a" Priority.NORMAL 1000000 1).2

def c3demo_item : QueueItem :=
  { priority := 0, reservation_time := 2000000, audio_data := none,
    sample_rate := 24000, project := "b", item_id := 2 }

/-- A service with an idle player and one LOW-priority ready item of
project "b" in the queue. -/
def c4demo : AudioManagerService :=
  { queue := { items := [{ priority := 2, reservation_time := 1000000,
                           audio_data := some [1], sample_rate := 24000,
                           project := "b", item_id := 1 }],
               items_by_id := [1], total_enqueued := 1, total_played := 0 } }

def c4demo_newitem : QueueItem :=
  { priority := 0, reservation_time := 2000000, audio_data := none,
    sample_rate := 24000, project := "a", item_id := 2 }

/-- A queue with one reservation, then the same queue with the slot
filled once. -/
def c7demo_q : AudioQueue :=
  (AudioQueue.init.reserve "a" Priority.NORMAL 1000000 1).2

def c7demo_q2 : AudioQueue := (c7demo_q.fill 1 [5] 24000).2

/-- A player that is mid-playback and paused. -/
def c8demo : AudioPlaybackManager :=
  { is_playing := true, is_paused := true, current_project := some "a" }

/-- Two reservations carrying the same `(priority, reservation_time)`
comparison key — two `reserve` calls inside the same clock reading — for
different projects. -/
def c9demo : AudioQueue :=
  { items := [{ priority := 1, reservation_time := 1000000,
                audio_data := none, sample_rate := 24000,
                project := "a", item_id := 1 },
              { priority := 1, reservation_time := 1000000,
                audio_data := none, sample_rate := 24000,
                project := "b", item_id := 2 }],
    items_by_id := [1, 2], total_enqueued := 2, total_played := 0 }

/-- A queue with distinct keys for the amended clear law. -/
def c9demo2 : AudioQueue :=
  { items := [{ priority := 1, reservation_time := 1000000,
                audio_data := none, sample_rate := 24000,
                project := "a", item_id := 1 },
              { priority := 1, reservation_time := 2000000,
                audio_data := some [3], sample_rate := 24000,
                project := "b", item_id := 2 }],
    items_by_id := [1, 2], total_enqueued := 2, total_played := 0 }

/-- A queue holding a single ready item. -/
def c10demo : AudioQueue :=
  (AudioQueue.init.enqueue [4, 4] 24000 "a" Priority.NORMAL 1000000 1).2

/-! ### Order lemmas for the dataclass comparison -/

theorem keyLt_irrefl (a : QueueItem) : ¬ keyLt a a := by
  simp only [QueueItem.keyLt]; omega

theorem keyLt_trans {a b c : QueueItem} (h1 : keyLt a b) (h2 : keyLt b c) :
    keyLt a c := by
  simp only [QueueItem.keyLt] at *; omega

theorem keyLt_of_not_keyLt_of_keyLt {x y r : QueueItem} (h1 : ¬ keyLt y x)
    (h2 : keyLt y r) : keyLt x r := by
  simp only [QueueItem.keyLt] at *; omega

/-! ### `sortedHead` and `pyRemove` lemmas -/

theorem sortedHeadAux_mem (x : QueueItem) (ys : List QueueItem) :
    sortedHeadAux x ys ∈ x :: ys := by
  induction ys generalizing x with
  | nil => simp [sortedHeadAux]
  | cons y ys ih =>
    rw [sortedHeadAux]
    split
    · rcases List.mem_cons.mp (ih y) with h | h
      · simp [h]
      · exact List.mem_cons_of_mem _ (List.mem_cons_of_mem _ h)
    · rcases List.mem_cons.mp (ih x) with h | h
      · simp [h]
      · exact List.mem_cons_of_mem _ (List.mem_cons_of_mem _ h)

theorem sortedHeadAux_min (x : QueueItem) (ys : List QueueItem) :
    ∀ z ∈ x :: ys, ¬ keyLt z (sortedHeadAux x ys) := by
  induction ys generalizing x with
  | nil =>
    intro z hz
    rcases List.mem_cons.mp hz with rfl | hz'
    · exact keyLt_irrefl z
    · cases hz'
  | cons y ys ih =>
    intro z hz
    unfold sortedHeadAux
    split
    · next hyx =>
      rcases List.mem_cons.mp hz with rfl | hz'
      · intro hxr
        exact ih y y (List.mem_cons_self _ _) (keyLt_trans hyx hxr)
      · rcases List.mem_cons.mp hz' with rfl | hz''
        · exact ih z z (List.mem_cons_self _ _)
        · exact ih y z (List.mem_cons_of_mem _ hz'')
    · next hyx =>
      rcases List.mem_cons.mp hz with rfl | hz'
      · exact ih z z (List.mem_cons_self _ _)
      · rcases List.mem_cons.mp hz' with rfl | hz''
        · intro hyr
          exact ih x x (List.mem_cons_self _ _)
            (keyLt_of_not_keyLt_of_keyLt hyx hyr)
        · exact ih x z (List.mem_cons_of_mem _ hz'')

theorem sortedHead_mem {l : List QueueItem} {m : QueueItem}
    (h : sortedHead l = some m) : m ∈ l := by
  cases l with
  | nil => cases h
  | cons x xs =>
    have : sortedHeadAux x xs = m := by
      simpa [sortedHead] using h
    exact this ▸ sortedHeadAux_mem x xs

theorem sortedHead_min {l : List QueueItem} {m : QueueItem}
    (h : sortedHead l = some m) : ∀ z ∈ l, ¬ keyLt z m := by
  cases l with
  | nil => cases h
  | cons x xs =>
    have hm : sortedHeadAux x xs = m := by
      simpa [sortedHead] using h
    exact hm ▸ sortedHeadAux_min x xs

theorem pyRemove_subset (l : List QueueItem) (it : QueueItem) :
    ∀ x ∈ pyRemove l it, x ∈ l := by
  induction l with
  | nil => intro x hx; cases hx
  | cons y ys ih =>
    intro x hx
    unfold pyRemove at hx
    split at hx
    · exact List.mem_cons_of_mem _ hx
    · rcases List.mem_cons.mp hx with rfl | hx'
      · exact List.mem_cons_self _ _
      · exact List.mem_cons_of_mem _ (ih x hx')

/-! ### Case analysis of `dequeue` -/

theorem dequeue_spec (s : AudioQueue) (now : ℤ) :
    (∃ next, sortedHead s.items = some next ∧ next.is_ready ∧
       s.dequeue now = (some next,
         { s with items := pyRemove s.items next,
                  items_by_id := s.items_by_id.erase next.item_id,
                  total_played := s.total_played + 1 })) ∨
    (∃ next cand, sortedHead s.items = some next ∧ ¬ next.is_ready ∧
       now - next.reservation_time > AudioQueue.RESERVATION_TIMEOUT ∧
       sortedHead (pyRemove s.items next) = some cand ∧ cand.is_ready ∧
       s.dequeue now = (some cand,
         { s with items := pyRemove (pyRemove s.items next) cand,
                  items_by_id :=
                    (s.items_by_id.erase next.item_id).erase cand.item_id,
                  total_played := s.total_played + 1 })) ∨
    ((s.dequeue now).1 = none ∧
       ((sortedHead s.items = none ∧ (s.dequeue now).2 = s) ∨
        (∃ next, sortedHead s.items = some next ∧ ¬ next.is_ready ∧
           ¬ now - next.reservation_time > AudioQueue.RESERVATION_TIMEOUT ∧
           (s.dequeue now).2 = s) ∨
        (∃ next, sortedHead s.items = some next ∧ ¬ next.is_ready ∧
           now - next.reservation_time > AudioQueue.RESERVATION_TIMEOUT ∧
           (s.dequeue now).2 = AudioQueue.removeItem s next))) := by
  unfold AudioQueue.dequeue
  cases hh : sortedHead s.items with
  | none =>
    dsimp only
    right; right; exact ⟨rfl, Or.inl ⟨rfl, rfl⟩⟩
  | some next =>
    dsimp only
    by_cases hr : next.is_ready
    · rw [if_pos hr]
      exact Or.inl ⟨next, rfl, hr, rfl⟩
    · rw [if_neg hr]
      by_cases he : now - next.reservation_time > AudioQueue.RESERVATION_TIMEOUT
      · rw [if_pos he]
        cases hh2 : sortedHead (AudioQueue.removeItem s next).items with
        | none =>
          dsimp only
          right; right; exact ⟨rfl, Or.inr (Or.inr ⟨next, rfl, hr, he, rfl⟩)⟩
        | some cand =>
          dsimp only
          by_cases hr2 : cand.is_ready
          · rw [if_pos hr2]
            exact Or.inr (Or.inl ⟨next, cand, rfl, hr, he, hh2, hr2, rfl⟩)
          · rw [if_neg hr2]
            right; right
            exact ⟨rfl, Or.inr (Or.inr ⟨next, rfl, hr, he, rfl⟩)⟩
      · rw [if_neg he]
        right; right; exact ⟨rfl, Or.inr (Or.inl ⟨next, rfl, hr, he, rfl⟩)⟩

theorem dequeue_ret_mem_ready {s : AudioQueue} {now : ℤ} {X : QueueItem}
    (h : (s.dequeue now).1 = some X) : X ∈ s.items ∧ X.is_ready := by
  rcases dequeue_spec s now with ⟨next, hh, hr, heq⟩ |
    ⟨next, cand, hh, _, _, hh2, hr2, heq⟩ | ⟨hn, _⟩
  · rw [heq] at h
    obtain rfl : next = X := by simpa using h
    exact ⟨sortedHead_mem hh, hr⟩
  · rw [heq] at h
    obtain rfl : cand = X := by simpa using h
    exact ⟨pyRemove_subset _ _ cand (sortedHead_mem hh2), hr2⟩
  · rw [h] at hn; cases hn

theorem dequeue_ret_min {s : AudioQueue} {now : ℤ} {X : QueueItem}
    (h : (s.dequeue now).1 = some X) :
    ∀ Y ∈ (s.dequeue now).2.items, ¬ keyLt Y X := by
  intro Y hY
  rcases dequeue_spec s now with ⟨next, hh, hr, heq⟩ |
    ⟨next, cand, hh, _, _, hh2, hr2, heq⟩ | ⟨hn, _⟩
  · rw [heq] at h hY
    obtain rfl : next = X := by simpa using h
    exact sortedHead_min hh Y (pyRemove_subset _ _ Y hY)
  · rw [heq] at h hY
    obtain rfl : cand = X := by simpa using h
    exact sortedHead_min hh2 Y (pyRemove_subset _ _ Y hY)
  · rw [h] at hn; cases hn

theorem dequeue_items_subset (s : AudioQueue) (now : ℤ) :
    ∀ Y ∈ (s.dequeue now).2.items, Y ∈ s.items := by
  intro Y hY
  rcases dequeue_spec s now with ⟨next, hh, hr, heq⟩ |
    ⟨next, cand, hh, _, _, hh2, hr2, heq⟩ | ⟨hn, hs⟩
  · rw [heq] at hY
    exact pyRemove_subset _ _ Y hY
  · rw [heq] at hY
    exact pyRemove_subset _ _ Y (pyRemove_subset _ _ Y hY)
  · rcases hs with ⟨_, hs⟩ | ⟨next, _, _, _, hs⟩ | ⟨next, _, _, _, hs⟩
    · rw [hs] at hY; exact hY
    · rw [hs] at hY; exact hY
    · rw [hs] at hY
      exact pyRemove_subset _ _ Y hY

/-! ### Step lemmas for interleaved histories -/

theorem foldl_remove_subset (r : List QueueItem) :
    ∀ (s : AudioQueue) (Y : QueueItem),
      Y ∈ (r.foldl (fun st it =>
        { st with items := pyRemove st.items it,
                  items_by_id := st.items_by_id.erase it.item_id }) s).items →
      Y ∈ s.items := by
  induction r with
  | nil => intro s Y h; exact h
  | cons it r ih =>
    intro s Y h
    rw [List.foldl_cons] at h
    exact pyRemove_subset _ _ Y (ih _ Y h)

theorem stepOp_ret_some {s : AudioQueue} {op : Op} {X : QueueItem}
    (h : (stepOp s op).1 = some X) : X ∈ s.items ∧ X.is_ready := by
  cases op with
  | dequeue now => exact dequeue_ret_mem_ready h
  | reserve p pr now id => simp [stepOp] at h
  | enqueue a r p pr now id => simp [stepOp] at h
  | fill id a r => simp [stepOp] at h
  | clear p => simp [stepOp] at h

theorem stepOp_ret_min {s : AudioQueue} {op : Op} {X : QueueItem}
    (h : (stepOp s op).1 = some X) :
    ∀ Y ∈ (stepOp s op).2.items, ¬ keyLt Y X := by
  cases op with
  | dequeue now => exact dequeue_ret_min h
  | reserve p pr now id => simp [stepOp] at h
  | enqueue a r p pr now id => simp [stepOp] at h
  | fill id a r => simp [stepOp] at h
  | clear p => simp [stepOp] at h

theorem stepOp_ret_time {s : AudioQueue} {op : Op} {X : QueueItem}
    (h : (stepOp s op).1 = some X) : ∃ u, opTime op = some u := by
  cases op with
  | dequeue now => exact ⟨now, rfl⟩
  | reserve p pr now id => simp [stepOp] at h
  | enqueue a r p pr now id => simp [stepOp] at h
  | fill id a r => simp [stepOp] at h
  | clear p => simp [stepOp] at h

theorem opInsertCore_time {op : Op} {c : Nat × ℕ × ℤ}
    (h : opInsertCore op = some c) : opTime op = some c.2.2 := by
  cases op with
  | reserve p pr now id =>
    simp only [opInsertCore, Option.some.injEq] at h
    simp [opTime, ← h]
  | enqueue a r p pr now id =>
    simp only [opInsertCore, Option.some.injEq] at h
    simp [opTime, ← h]
  | fill id a r => simp [opInsertCore] at h
  | dequeue now => simp [opInsertCore] at h
  | clear p => simp [opInsertCore] at h

theorem stepOp_core_mem {s : AudioQueue} {op : Op} :
    ∀ Y ∈ (stepOp s op).2.items,
      core Y ∈ s.items.map core ∨ opInsertCore op = some (core Y) := by
  intro Y hY
  cases op with
  | reserve p pr now id =>
    simp only [stepOp, AudioQueue.reserve] at hY
    rcases List.mem_append.mp hY with h | h
    · exact Or.inl (List.mem_map_of_mem _ h)
    · obtain rfl : Y = _ := List.mem_singleton.mp h
      exact Or.inr rfl
  | enqueue a r p pr now id =>
    simp only [stepOp, AudioQueue.enqueue] at hY
    rcases List.mem_append.mp hY with h | h
    · exact Or.inl (List.mem_map_of_mem _ h)
    · obtain rfl : Y = _ := List.mem_singleton.mp h
      exact Or.inr rfl
  | fill id a r =>
    left
    simp only [stepOp, AudioQueue.fill] at hY
    split at hY
    · obtain ⟨Z, hZ, hZY⟩ := List.mem_map.mp hY
      have hcore : core Y = core Z := by
        rw [← hZY]
        by_cases hid : Z.item_id = id
        · simp [core, hid]
        · simp [core, hid]
      rw [hcore]
      exact List.mem_map_of_mem _ hZ
    · exact List.mem_map_of_mem _ hY
  | dequeue now =>
    exact Or.inl (List.mem_map_of_mem _ (dequeue_items_subset s now Y hY))
  | clear p =>
    left
    cases p with
    | none => simp [stepOp, AudioQueue.clear] at hY
    | some q =>
      simp only [stepOp, AudioQueue.clear] at hY
      exact List.mem_map_of_mem _ (foldl_remove_subset _ _ Y hY)

/-! ### Time monotonicity along a history -/

theorem timesMonoFrom_cons_none {t : ℤ} {op : Op} {ops : List Op}
    (ho : opTime op = none) (h : timesMonoFrom t (op :: ops) = true) :
    timesMonoFrom t ops = true := by
  simp only [timesMonoFrom, ho] at h
  exact h

theorem timesMonoFrom_cons_some {t u : ℤ} {op : Op} {ops : List Op}
    (ho : opTime op = some u) (h : timesMonoFrom t (op :: ops) = true) :
    t ≤ u ∧ timesMonoFrom u ops = true := by
  simp only [timesMonoFrom, ho, Bool.and_eq_true, decide_eq_true_eq] at h
  exact h

theorem timesMonoFrom_le {t : ℤ} {ops : List Op}
    (h : timesMonoFrom t ops = true) {op : Op} (hop : op ∈ ops) {v : ℤ}
    (hv : opTime op = some v) : t ≤ v := by
  induction ops generalizing t with
  | nil => cases hop
  | cons o os ih =>
    rcases List.mem_cons.mp hop with rfl | hop'
    · exact (timesMonoFrom_cons_some hv h).1
    · cases ho : opTime o with
      | none => exact ih (timesMonoFrom_cons_none ho h) hop'
      | some u =>
        obtain ⟨h1, h2⟩ := timesMonoFrom_cons_some ho h
        exact le_trans h1 (ih h2 hop')

theorem stepOp_rt_le {s : AudioQueue} {op : Op} {t u : ℤ}
    (hrt : ∀ Y ∈ s.items, Y.reservation_time ≤ t) (htu : t ≤ u)
    (htime : ∀ v, opTime op = some v → v ≤ u) :
    ∀ Y ∈ (stepOp s op).2.items, Y.reservation_time ≤ u := by
  intro Y hY
  rcases stepOp_core_mem Y hY with hin | hins
  · obtain ⟨Z, hZ, hZY⟩ := List.mem_map.mp hin
    have h2 : Z.reservation_time = Y.reservation_time :=
      congrArg (fun c => c.2.2) hZY
    have h3 := hrt Z hZ
    omega
  · have hv := opInsertCore_time hins
    have h2 : (core Y).2.2 ≤ u := htime _ hv
    have h3 : (core Y).2.2 = Y.reservation_time := rfl
    omega

/-! ### Runs of histories -/

theorem run_cons (s : AudioQueue) (op : Op) (ops : List Op) :
    run s (op :: ops) =
      ((run (stepOp s op).2 ops).1,
       (stepOp s op).1.toList ++ (run (stepOp s op).2 ops).2) := rfl

/-- Every item ever handed to the worker was either already queued or
inserted by some operation of the history: its immutable core survives
every step. -/
theorem run_core_mem {ops : List Op} {s : AudioQueue} {X : QueueItem}
    (h : X ∈ (run s ops).2) :
    core X ∈ s.items.map core ∨
      ∃ op ∈ ops, opInsertCore op = some (core X) := by
  induction ops generalizing s with
  | nil => simp [run] at h
  | cons op ops ih =>
    rw [run_cons] at h
    rcases List.mem_append.mp h with h1 | h2
    · cases hret : (stepOp s op).1 with
      | none => rw [hret] at h1; cases h1
      | some Z =>
        rw [hret] at h1
        have hXZ : X = Z := by simpa using h1
        subst hXZ
        exact Or.inl (List.mem_map_of_mem _ (stepOp_ret_some hret).1)
    · rcases ih h2 with hcore | ⟨op', hop', hins⟩
      · obtain ⟨Y, hY, hYX⟩ := List.mem_map.mp hcore
        rcases stepOp_core_mem Y hY with hin | hins2
        · exact Or.inl (hYX ▸ hin)
        · exact Or.inr ⟨op, List.mem_cons_self _ _, hYX ▸ hins2⟩
      · exact Or.inr ⟨op', List.mem_cons_of_mem _ hop', hins⟩

/-- Core of the FIFO argument: along any history with a nondecreasing
clock, a same-priority inversion among the played items is impossible —
the later-reserved item can never be handed to the worker first. -/
theorem run_no_inversion {ops : List Op} {s : AudioQueue} {t : ℤ}
    (hmono : timesMonoFrom t ops = true)
    (hrt : ∀ Y ∈ s.items, Y.reservation_time ≤ t)
    {A B : QueueItem} {i j : Nat}
    (hB : ((run s ops).2)[j]? = some B)
    (hA : ((run s ops).2)[i]? = some A)
    (hpri : A.priority = B.priority)
    (hlt : A.reservation_time < B.reservation_time)
    (hji : j < i) : False := by
  induction ops generalizing s t i j with
  | nil => simp [run] at hB
  | cons op ops ih =>
    rw [run_cons] at hA hB
    cases hret : (stepOp s op).1 with
    | none =>
      rw [hret] at hA hB
      simp only [Option.toList, List.nil_append] at hA hB
      cases ho : opTime op with
      | none =>
        have hrt' := stepOp_rt_le hrt (le_refl t)
          (fun v hv => by rw [ho] at hv; cases hv)
        exact ih (timesMonoFrom_cons_none ho hmono) hrt' hB hA hji
      | some u =>
        obtain ⟨htu, hmono'⟩ := timesMonoFrom_cons_some ho hmono
        have hrt' := stepOp_rt_le hrt htu
          (fun v hv => le_of_eq (Option.some.inj (ho ▸ hv)).symm)
        exact ih hmono' hrt' hB hA hji
    | some X =>
      rw [hret] at hA hB
      simp only [Option.toList, List.cons_append] at hA hB
      obtain ⟨u, hu⟩ := stepOp_ret_time hret
      obtain ⟨htu, hmono'⟩ := timesMonoFrom_cons_some hu hmono
      have hrt' : ∀ Y ∈ (stepOp s op).2.items, Y.reservation_time ≤ u :=
        stepOp_rt_le hrt htu
          (fun v hv => le_of_eq (Option.some.inj (hu ▸ hv)).symm)
      cases j with
      | zero =>
        have hBX : X = B := by simpa using hB
        obtain ⟨i', rfl⟩ : ∃ i', i = i' + 1 := ⟨i - 1, by omega⟩
        have hA' : (run (stepOp s op).2 ops).2[i']? = some A := by
          simpa using hA
        have hAmem : A ∈ (run (stepOp s op).2 ops).2 :=
          List.getElem?_mem hA'
        have hXB1 : X.priority = B.priority := by rw [hBX]
        have hXB2 : X.reservation_time = B.reservation_time := by rw [hBX]
        rcases run_core_mem hAmem with hcore | ⟨op', hop', hins⟩
        · obtain ⟨Y, hY, hYA⟩ := List.mem_map.mp hcore
          have h1 : Y.priority = A.priority :=
            congrArg (fun c => c.2.1) hYA
          have h2 : Y.reservation_time = A.reservation_time :=
            congrArg (fun c => c.2.2) hYA
          apply stepOp_ret_min hret Y hY
          simp only [QueueItem.keyLt]
          omega
        · have hXrt : X.reservation_time ≤ t :=
            hrt X (stepOp_ret_some hret).1
          have hv := opInsertCore_time hins
          have hua : u ≤ (core A).2.2 := timesMonoFrom_le hmono' hop' hv
          have hua' : u ≤ A.reservation_time := hua
          omega
      | succ j' =>
        obtain ⟨i', rfl⟩ : ∃ i', i = i' + 1 := ⟨i - 1, by omega⟩
        have hA' : (run (stepOp s op).2 ops).2[i']? = some A := by
          simpa using hA
        have hB' : (run (stepOp s op).2 ops).2[j']? = some B := by
          simpa using hB
        exact ih hmono' hrt' hB' hA' (by omega)

/-! ### The leftmost minimum is removed exactly -/

theorem sameKey_refl (a : QueueItem) : sameKey a a := ⟨rfl, rfl⟩

theorem keyLt_congr_right {a b c : QueueItem} (h : sameKey a b)
    (hlt : keyLt c a) : keyLt c b := by
  simp only [QueueItem.sameKey, QueueItem.keyLt] at *; omega

theorem keyLt_congr_left {a b c : QueueItem} (h : sameKey a b)
    (hlt : keyLt a c) : keyLt b c := by
  simp only [QueueItem.sameKey, QueueItem.keyLt] at *; omega

theorem sameKey_of_not_keyLt {a b : QueueItem} (h1 : ¬ keyLt a b)
    (h2 : ¬ keyLt b a) : sameKey a b := by
  simp only [QueueItem.sameKey, QueueItem.keyLt] at *; omega

theorem sortedHeadAux_decomp (x : QueueItem) (ys : List QueueItem) :
    ∃ l1 l2, x :: ys = l1 ++ (sortedHeadAux x ys) :: l2 ∧
      ∀ z ∈ l1, ¬ sameKey z (sortedHeadAux x ys) := by
  induction ys generalizing x with
  | nil => exact ⟨[], [], rfl, by intro z hz; cases hz⟩
  | cons y ys ih =>
    rw [sortedHeadAux]
    by_cases hk : keyLt y x
    · rw [if_pos hk]
      obtain ⟨l1, l2, hdec, hl1⟩ := ih y
      refine ⟨x :: l1, l2, by rw [List.cons_append, ← hdec], ?_⟩
      intro z hz
      rcases List.mem_cons.mp hz with rfl | hz'
      · intro hsk
        exact sortedHeadAux_min y ys y (List.mem_cons_self _ _)
          (keyLt_congr_right hsk hk)
      · exact hl1 z hz'
    · rw [if_neg hk]
      obtain ⟨l1, l2, hdec, hl1⟩ := ih x
      cases l1 with
      | nil =>
        obtain ⟨hx, hys⟩ : x = sortedHeadAux x ys ∧ ys = l2 := by
          simpa using hdec
        exact ⟨[], y :: ys, by rw [← hx]; rfl, by intro z hz; cases hz⟩
      | cons a l1' =>
        obtain ⟨hx, hys⟩ : x = a ∧ ys = l1' ++ sortedHeadAux x ys :: l2 := by
          simpa using hdec
        subst hx
        refine ⟨x :: y :: l1', l2, by
          rw [List.cons_append, List.cons_append, ← hys], ?_⟩
        intro z hz
        rcases List.mem_cons.mp hz with rfl | hz'
        · exact hl1 z (List.mem_cons_self _ _)
        · rcases List.mem_cons.mp hz' with rfl | hz''
          · intro hsk
            have hxm : ¬ keyLt x (sortedHeadAux x ys) :=
              sortedHeadAux_min x ys x (List.mem_cons_self _ _)
            have hmx : ¬ keyLt (sortedHeadAux x ys) x := fun hc =>
              hk (keyLt_congr_left ⟨hsk.1.symm, hsk.2.symm⟩ hc)
            exact hl1 x (List.mem_cons_self _ _)
              (sameKey_of_not_keyLt hxm hmx)
          · exact hl1 z (List.mem_cons_of_mem _ hz'')

theorem sortedHead_decomp {l : List QueueItem} {m : QueueItem}
    (h : sortedHead l = some m) :
    ∃ l1 l2, l = l1 ++ m :: l2 ∧ ∀ z ∈ l1, ¬ sameKey z m := by
  cases l with
  | nil => cases h
  | cons x xs =>
    have hm : sortedHeadAux x xs = m := by simpa [sortedHead] using h
    obtain ⟨l1, l2, hdec, hl1⟩ := sortedHeadAux_decomp x xs
    rw [hm] at hdec hl1
    exact ⟨l1, l2, hdec, hl1⟩

theorem pyRemove_eq_of_decomp {l1 l2 : List QueueItem} {m : QueueItem}
    (h : ∀ z ∈ l1, ¬ sameKey z m) : pyRemove (l1 ++ m :: l2) m = l1 ++ l2 := by
  induction l1 with
  | nil =>
    simp only [List.nil_append]
    rw [pyRemove, if_pos (sameKey_refl m)]
  | cons a l1' ih =>
    rw [List.cons_append, pyRemove,
      if_neg (h a (List.mem_cons_self _ _)), List.cons_append,
      ih fun z hz => h z (List.mem_cons_of_mem _ hz)]

/-- With unique ids the removed sorted head disappears entirely: it is not
among the remaining items, whose ids all differ from its id. -/
theorem sortedHead_pyRemove_gone {l : List QueueItem} {m : QueueItem}
    (h : sortedHead l = some m)
    (hids : (l.map QueueItem.item_id).Nodup) :
    m ∉ pyRemove l m ∧ ∀ z ∈ pyRemove l m, z.item_id ≠ m.item_id := by
  obtain ⟨l1, l2, rfl, hl1⟩ := sortedHead_decomp h
  rw [pyRemove_eq_of_decomp hl1]
  rw [List.map_append, List.map_cons] at hids
  obtain ⟨hn1, hn2, hdisj⟩ := List.nodup_append.mp hids
  have hid1 : m.item_id ∉ l1.map QueueItem.item_id := fun hc =>
    hdisj hc (List.mem_cons_self _ _)
  have hid2 : m.item_id ∉ l2.map QueueItem.item_id :=
    (List.nodup_cons.mp hn2).1
  have hne : ∀ z ∈ l1 ++ l2, z.item_id ≠ m.item_id := by
    intro z hz hc
    rcases List.mem_append.mp hz with hz1 | hz2
    · exact hid1 (hc ▸ List.mem_map_of_mem _ hz1)
    · exact hid2 (hc ▸ List.mem_map_of_mem _ hz2)
  exact ⟨fun hm => hne m hm rfl, hne⟩

/-! ### Event map lemmas -/

theorem EventMap.lookup_signal_ne (m : EventMap) {a b : Nat} (h : b ≠ a) :
    (m.signal a).lookup b = m.lookup b := by
  induction m with
  | nil => rfl
  | cons e rest ih =>
    obtain ⟨k, v⟩ := e
    rw [EventMap.signal, List.map_cons]
    dsimp only
    have hsig : List.map (fun e => if e.1 = a then (e.1, true) else e) rest
        = EventMap.signal rest a := rfl
    by_cases he : k = a
    · have hbk : (b == k) = false :=
        beq_eq_false_iff_ne.mpr (by rw [he]; exact h)
      rw [if_pos he]
      simp only [List.lookup, hbk]
      rw [hsig]; exact ih
    · rw [if_neg he]
      cases hbe : (b == k) with
      | true => simp only [List.lookup, hbe]
      | false =>
        simp only [List.lookup, hbe]
        rw [hsig]; exact ih

/-! ### `clear` fold lemmas -/

theorem clear_foldl_items (r : List QueueItem) :
    ∀ (s : AudioQueue),
      (r.foldl (fun st it =>
        { st with items := pyRemove st.items it,
                  items_by_id := st.items_by_id.erase it.item_id }) s).items
        = r.foldl (fun l it => pyRemove l it) s.items := by
  induction r with
  | nil => intro s; rfl
  | cons it r ih =>
    intro s
    rw [List.foldl_cons, List.foldl_cons]
    exact ih _

theorem clear_foldl_played (r : List QueueItem) :
    ∀ (s : AudioQueue),
      (r.foldl (fun st it =>
        { st with items := pyRemove st.items it,
                  items_by_id := st.items_by_id.erase it.item_id }) s).total_played
        = s.total_played := by
  induction r with
  | nil => intro s; rfl
  | cons it r ih =>
    intro s
    rw [List.foldl_cons]
    exact ih _

theorem pyRemove_cons_not_same {x it : QueueItem} (xs : List QueueItem)
    (h : ¬ sameKey x it) : pyRemove (x :: xs) it = x :: pyRemove xs it := by
  rw [pyRemove, if_neg h]

theorem foldl_pyRemove_head (r : List QueueItem) :
    ∀ (x : QueueItem) (l : List QueueItem), (∀ it ∈ r, ¬ sameKey x it) →
      r.foldl (fun acc it => pyRemove acc it) (x :: l)
        = x :: r.foldl (fun acc it => pyRemove acc it) l := by
  induction r with
  | nil => intro x l _; rfl
  | cons it r ih =>
    intro x l h
    rw [List.foldl_cons, List.foldl_cons,
      pyRemove_cons_not_same l (h it (List.mem_cons_self _ _))]
    exact ih x _ fun z hz => h z (List.mem_cons_of_mem _ hz)

theorem foldl_pyRemove_filter (l : List QueueItem) (p : String)
    (hkeys : List.Pairwise (fun a b => ¬ sameKey a b) l) :
    (l.filter fun it => it.project = p).foldl
        (fun acc it => pyRemove acc it) l
      = l.filter fun it => ¬ it.project = p := by
  induction l with
  | nil => rfl
  | cons x xs ih =>
    obtain ⟨hx, hxs⟩ := List.pairwise_cons.mp hkeys
    by_cases hp : x.project = p
    · rw [List.filter_cons_of_pos (by simpa using hp),
        List.filter_cons_of_neg (by simpa using hp), List.foldl_cons,
        pyRemove, if_pos (sameKey_refl x)]
      exact ih hxs
    · rw [List.filter_cons_of_neg (by simpa using hp),
        List.filter_cons_of_pos (by simpa using hp),
        foldl_pyRemove_head _ x xs
          (fun it hit => hx it (List.mem_of_mem_filter hit)),
        ih hxs]

/-! ### Worker-iteration equations -/

theorem playback_step_none {st : AudioManagerService} {now : ℤ}
    (h : (st.queue.dequeue now).1 = none) :
    st.playback_step now =
      (none, { st with queue := (st.queue.dequeue now).2 }) := by
  unfold AudioManagerService.playback_step
  rw [h]

theorem playback_step_some {st : AudioManagerService} {now : ℤ}
    {item : QueueItem} (h : (st.queue.dequeue now).1 = some item) :
    st.playback_step now =
      (some item,
       { st with queue := (st.queue.dequeue now).2,
                 player := st.player.play (item.audio_data.getD [])
                   item.sample_rate item.project,
                 item_events := st.item_events.signal item.item_id }) := by
  unfold AudioManagerService.playback_step
  rw [h]

/-! ### The announce scan in insertion order -/

theorem differentProjectBefore_append (items : List QueueItem)
    (new : QueueItem) (P : String)
    (hfresh : ∀ Y ∈ items, Y.item_id ≠ new.item_id) :
    AudioManagerService.differentProjectBefore (items ++ [new])
        new.item_id P = true ↔
      ∃ Y ∈ items, Y.project ≠ P := by
  induction items with
  | nil => simp [AudioManagerService.differentProjectBefore]
  | cons x xs ih =>
    rw [List.cons_append, AudioManagerService.differentProjectBefore,
      if_neg (hfresh x (List.mem_cons_self _ _))]
    by_cases hp : x.project = P
    · rw [if_neg (by simpa using hp)]
      rw [ih fun Y hY => hfresh Y (List.mem_cons_of_mem _ hY)]
      simp [hp]
    · rw [if_pos (by simpa using hp)]
      simp only [true_iff]
      exact ⟨x, List.mem_cons_self _ _, hp⟩

/-! ### Claim theorems -/

/-- C3, counterexample: with one NORMAL item queued, a HIGH-priority
`reserve` returns `position = 2` — the queue length after the append —
while the new item's 1-indexed rank in the scheduling order
(priority ascending, then reservation_time ascending) is 1. -/
theorem c3_reserve_position_counterexample :
    (c3demo_q1.reserve "b" Priority.HIGH 2000000 2).1.position = 2 ∧
    c3demo_item ∈ (c3demo_q1.reserve "b" Priority.HIGH 2000000 2).2.items ∧
    scheduleRank (c3demo_q1.reserve "b" Priority.HIGH 2000000 2).2.items
      c3demo_item = 1 ∧
    (2 : Nat) ≠ 1 := by decide

/-- C3, amended: the `position` returned by `reserve` is the number of
items in the queue after the insertion — the new item's 1-indexed rank in
insertion order, not its rank in the scheduling order. -/
theorem c3_reserve_position_is_queue_length (s : AudioQueue)
    (project : String) (pr : ℕ) (now : ℤ) (id : Nat) :
    (s.reserve project pr now id).1.position = s.items.length + 1 := by
  simp [AudioQueue.reserve]

/-- C5, counterexample: at 0.04 s after the last permitted chime the code
reports `seconds_remaining` rounded to one decimal (60.0 s), not the exact
difference `cooldown - (now - last_allowed_at)` (59.96 s) that the claim
states. -/
theorem c5_chime_counterexample :
    (AudioManagerService.init.check_chime_allowed 40000).1.allowed = false ∧
    (AudioManagerService.init.check_chime_allowed 40000).1.seconds_remaining
      ≠ AudioManagerService.init.chime_cooldown -
          (40000 - AudioManagerService.init.last_chime_time) := by decide

/-- C5, amended: `check_chime_allowed` at time `now` sets
`last_allowed_at = now` and returns `allowed = true, seconds_remaining = 0`
when the cooldown has elapsed; otherwise it leaves the state unchanged and
returns `allowed = false` with `seconds_remaining` equal to
`cooldown - (now - last_allowed_at)` rounded to one decimal place; and two
calls separated by less than the cooldown return at most one
`allowed = true`. -/
theorem c5_chime_check_and_record (st : AudioManagerService) (t1 t2 : ℤ) :
    (st.chime_cooldown ≤ t1 - st.last_chime_time →
       (st.check_chime_allowed t1).1 =
         { allowed := true, seconds_remaining := 0 } ∧
       (st.check_chime_allowed t1).2 = { st with last_chime_time := t1 }) ∧
    (¬ st.chime_cooldown ≤ t1 - st.last_chime_time →
       (st.check_chime_allowed t1).1 =
         { allowed := false,
           seconds_remaining := AudioManagerService.round1
             (st.chime_cooldown - (t1 - st.last_chime_time)) } ∧
       (st.check_chime_allowed t1).2 = st) ∧
    (t2 - t1 < st.chime_cooldown →
       ¬ ((st.check_chime_allowed t1).1.allowed = true ∧
          ((st.check_chime_allowed t1).2.check_chime_allowed t2).1.allowed
            = true)) := by
  unfold AudioManagerService.check_chime_allowed
  by_cases h1 : t1 - st.last_chime_time ≥ st.chime_cooldown
  · rw [if_pos h1]
    refine ⟨fun _ => ⟨rfl, rfl⟩, fun hc => absurd h1 hc, fun hlt hcontra => ?_⟩
    obtain ⟨-, h2⟩ := hcontra
    dsimp only at h2
    rw [if_neg (by omega)] at h2
    cases h2
  · rw [if_neg h1]
    exact ⟨fun hc => absurd hc h1, fun _ => ⟨rfl, rfl⟩,
      fun hlt hcontra => by cases hcontra.1⟩

/-- C5, witness: the amended theorem applied at the initial state with the
cooldown elapsed. -/
theorem c5_chime_witness :
    (AudioManagerService.init.check_chime_allowed 70000000).1 =
      { allowed := true, seconds_remaining := 0 } ∧
    (AudioManagerService.init.check_chime_allowed 70000000).2 =
      { AudioManagerService.init with last_chime_time := 70000000 } :=
  (c5_chime_check_and_record AudioManagerService.init 70000000 80000000).1
    (by decide)

/-- C6: `wait_for_item` on an id with no registered completion event
(unknown, or already garbage-collected) reports the item as completed
rather than erroring or blocking. -/
theorem c6_wait_unknown_id_completed (st : AudioManagerService) (id : Nat)
    (h : st.item_events.lookup id = none) :
    st.wait_for_item id = true := by
  unfold AudioManagerService.wait_for_item
  rw [h]

/-- C6, witness: waiting on an id the initial state never issued. -/
theorem c6_wait_witness :
    AudioManagerService.init.item_events.lookup 5 = none ∧
    AudioManagerService.init.wait_for_item 5 = true :=
  ⟨rfl, c6_wait_unknown_id_completed AudioManagerService.init 5 rfl⟩

/-- C8, counterexample: `stop()` during paused playback clears the paused
flag, so the flag does not only transition via `pause`/`resume`/hotkey
edges as the claim states. -/
theorem c8_stop_clears_paused_counterexample :
    c8demo.is_paused = true ∧ c8demo.stop.2.is_paused = false := by decide

/-- C8, amended: the paused flag is unchanged by `enqueue` (queue_audio),
`reserve`, `fill`, `clear`, a worker iteration, and a completed `play`;
`stop()` leaves it unchanged when nothing is playing but resets it to
`false` when it stops active playback. -/
theorem c8_paused_frame (st : AudioManagerService) (audio audio2 : List Nat)
    (rate rate2 : Nat) (p P : String) (pr pr2 : ℕ) (now now2 now3 : ℤ)
    (id id2 idf : Nat) (proj : Option String) :
    (st.queue_audio audio rate p pr now id).2.player.is_paused
        = st.player.is_paused ∧
    (st.reserve_slot P pr2 now2 id2).2.player.is_paused
        = st.player.is_paused ∧
    (st.fill_slot idf audio2 rate2).2.player.is_paused
        = st.player.is_paused ∧
    (st.clear_queue proj).2.player.is_paused = st.player.is_paused ∧
    (st.playback_step now3).2.player.is_paused = st.player.is_paused ∧
    (st.player.play audio rate p).is_paused = st.player.is_paused ∧
    st.stop.2.player.is_paused =
      (if st.player.is_playing then false else st.player.is_paused) := by
    refine ⟨rfl, rfl, rfl, rfl, ?_, rfl, ?_⟩
    · unfold AudioManagerService.playback_step
      cases (st.queue.dequeue now3).1 <;> rfl
    · unfold AudioManagerService.stop AudioPlaybackManager.stop
      by_cases hp : st.player.is_playing
      · rw [if_pos hp, if_pos hp]
      · rw [if_neg hp, if_neg hp]

/-- C10: the queue status's `total_played` counter increases by exactly
one precisely when `dequeue` removes and returns an item, that returned
item is always READY, any `dequeue` call that returns nothing — in
particular one that silently removes an expired PENDING reservation —
leaves the counter unchanged, and `clear` (with any project argument)
leaves it unchanged too. -/
theorem c10_total_played_frame (s : AudioQueue) (now : ℤ)
    (p : Option String) :
    ((AudioQueue.get_status (s.dequeue now).2).total_played
        = (AudioQueue.get_status s).total_played + 1 ↔
      ∃ X, (s.dequeue now).1 = some X) ∧
    (∀ X, (s.dequeue now).1 = some X → X.is_ready) ∧
    ((s.dequeue now).1 = none →
      (AudioQueue.get_status (s.dequeue now).2).total_played
        = (AudioQueue.get_status s).total_played) ∧
    (AudioQueue.get_status (s.clear p).2).total_played
      = (AudioQueue.get_status s).total_played := by
  have hpl0 : (s.dequeue now).1 = none →
      (s.dequeue now).2.total_played = s.total_played := by
    intro hn
    rcases dequeue_spec s now with ⟨next, hh, hr, heq⟩ |
      ⟨next, cand, hh, h1, h2, hh2, hr2, heq⟩ | ⟨hn2, hs⟩
    · rw [heq] at hn; cases hn
    · rw [heq] at hn; cases hn
    · rcases hs with ⟨_, hs⟩ | ⟨n, _, _, _, hs⟩ | ⟨n, _, _, _, hs⟩
      · rw [hs]
      · rw [hs]
      · rw [hs]; rfl
  refine ⟨?_, fun X hX => (dequeue_ret_mem_ready hX).2, hpl0, ?_⟩
  · show (s.dequeue now).2.total_played = s.total_played + 1 ↔ _
    rcases dequeue_spec s now with ⟨next, hh, hr, heq⟩ |
      ⟨next, cand, hh, h1, h2, hh2, hr2, heq⟩ | ⟨hn, hs⟩
    · rw [heq]
      simp
    · rw [heq]
      simp
    · rw [hpl0 hn, hn]
      constructor
      · intro hcontra; omega
      · rintro ⟨X, hX⟩; cases hX
  · show (s.clear p).2.total_played = s.total_played
    cases p with
    | none => rfl
    | some q => exact clear_foldl_played _ s

/-- C10, witness: the frame law at a queue holding one ready item drained
at a concrete time, and the unchanged counter at a queue whose expired
PENDING reservation is removed by a `dequeue` that returns nothing. -/
theorem c10_total_played_witness :
    (((AudioQueue.get_status (c10demo.dequeue 2000000).2).total_played
        = (AudioQueue.get_status c10demo).total_played + 1 ↔
      ∃ X, (c10demo.dequeue 2000000).1 = some X) ∧
    (∀ X, (c10demo.dequeue 2000000).1 = some X → X.is_ready) ∧
    ((c10demo.dequeue 2000000).1 = none →
      (AudioQueue.get_status (c10demo.dequeue 2000000).2).total_played
        = (AudioQueue.get_status c10demo).total_played) ∧
    (AudioQueue.get_status (c10demo.clear none).2).total_played
      = (AudioQueue.get_status c10demo).total_played) ∧
    ((c2demo.queue.dequeue (31 * SECOND)).1 = none ∧
     (AudioQueue.get_status (c2demo.queue.dequeue (31 * SECOND)).2).total_played
       = (AudioQueue.get_status c2demo.queue).total_played) :=
  ⟨c10_total_played_frame c10demo 2000000 none,
   by decide,
   (c10_total_played_frame c2demo.queue (31 * SECOND) none).2.2.1
     (by decide)⟩

/-- C4, counterexample: a HIGH reservation behind a queued LOW item of a
different project gets `should_announce = true` although nothing is
playing and no different-project item is ahead of the new slot in the
scheduling order — the code scans the queue list in insertion order, not
scheduling order. -/
theorem c4_should_announce_counterexample :
    (c4demo.reserve_slot "a" Priority.HIGH 2000000 2).1.should_announce
      = true ∧
    c4demo.player.current_project = none ∧
    (∀ Y ∈ (c4demo.reserve_slot "a" Priority.HIGH 2000000 2).2.queue.items,
      Y.project ≠ "a" → ¬ keyLt Y c4demo_newitem) := by decide

/-- C4, amended: with a fresh item id, `reserve_slot` sets
`should_announce` to true iff a nonempty project different from the
caller's is recorded as currently playing, or some item already in the
queue (in insertion order, regardless of priority) belongs to a different
project. -/
theorem c4_should_announce_iff (st : AudioManagerService) (P : String)
    (pr : ℕ) (now : ℤ) (id : Nat)
    (hfresh : ∀ Y ∈ st.queue.items, Y.item_id ≠ id) :
    (st.reserve_slot P pr now id).1.should_announce = true ↔
      AudioManagerService.truthyDifferent st.player.current_project P
          = true ∨
        ∃ Y ∈ st.queue.items, Y.project ≠ P := by
  have hsa : (st.reserve_slot P pr now id).1.should_announce =
      (AudioManagerService.truthyDifferent st.player.current_project P ||
        AudioManagerService.differentProjectBefore
          (st.queue.items ++ [⟨pr, now, none, 24000, P, id⟩]) id P) := rfl
  rw [hsa, Bool.or_eq_true]
  exact or_congr Iff.rfl
    (differentProjectBefore_append st.queue.items
      ⟨pr, now, none, 24000, P, id⟩ P hfresh)

/-- C4, witness: the amended law instantiated at the service with one
queued different-project item. -/
theorem c4_should_announce_witness :
    (c4demo.reserve_slot "a" Priority.HIGH 2000000 2).1.should_announce
        = true ↔
      AudioManagerService.truthyDifferent c4demo.player.current_project "a"
          = true ∨
        ∃ Y ∈ c4demo.queue.items, Y.project ≠ "a" :=
  c4_should_announce_iff c4demo "a" Priority.HIGH 2000000 2 (by decide)

/-- Successful-`fill` equations. -/
theorem fill_pos_result {s : AudioQueue} {id : Nat} (audio : List Nat)
    (rate : Nat) (h : id ∈ s.items_by_id) :
    (s.fill id audio rate).1 = { filled := true, error := none } ∧
    (s.fill id audio rate).2.items_by_id = s.items_by_id ∧
    (s.fill id audio rate).2.items.length = s.items.length := by
  unfold AudioQueue.fill
  rw [if_pos h]
  exact ⟨rfl, rfl, by simp⟩

/-- Failed-`fill` equations. -/
theorem fill_neg_result {s : AudioQueue} {id : Nat} (audio : List Nat)
    (rate : Nat) (h : id ∉ s.items_by_id) :
    (s.fill id audio rate).1 =
      { filled := false, error := some "Item not found or expired" } ∧
    (s.fill id audio rate).2 = s := by
  unfold AudioQueue.fill
  rw [if_neg h]
  exact ⟨rfl, rfl⟩

/-- C7, counterexample: a second `fill` for an id whose first `fill`
succeeded returns `filled = true` again (overwriting the audio) while the
item is still queued — not the claimed `not_found`. -/
theorem c7_double_fill_counterexample :
    (c7demo_q.fill 1 [5] 24000).1.filled = true ∧
    c7demo_q2 = (c7demo_q.fill 1 [5] 24000).2 ∧
    (c7demo_q2.fill 1 [6] 24000).1 = { filled := true, error := none } := by
  decide

/-- C7, amended: `fill` on an unknown or expired id returns the
distinguishable not-found error and leaves the queue unchanged, and once
an item has been dequeued (played) any further `fill` on its id returns
not-found, so an item is never re-queued or played twice; but a second
`fill` while the item is still queued succeeds, overwriting the stored
audio of the single queue entry. -/
theorem c7_fill_not_found_semantics (s : AudioQueue) (id : Nat)
    (audio audio2 : List Nat) (rate rate2 : Nat) (now : ℤ) :
    (id ∉ s.items_by_id →
      (s.fill id audio rate).1 =
        { filled := false, error := some "Item not found or expired" } ∧
      (s.fill id audio rate).2 = s) ∧
    (s.items_by_id.Nodup → ∀ X, (s.dequeue now).1 = some X →
      ((s.dequeue now).2.fill X.item_id audio2 rate2).1 =
        { filled := false, error := some "Item not found or expired" }) ∧
    (id ∈ s.items_by_id →
      (s.fill id audio rate).1 = { filled := true, error := none } ∧
      (s.fill id audio rate).2.items_by_id = s.items_by_id ∧
      (s.fill id audio rate).2.items.length = s.items.length ∧
      ((s.fill id audio rate).2.fill id audio2 rate2).1 =
        { filled := true, error := none }) := by
  refine ⟨fun hid => fill_neg_result audio rate hid, ?_, fun hid => ?_⟩
  · intro hnd X hX
    have hnotin : X.item_id ∉ (s.dequeue now).2.items_by_id := by
      rcases dequeue_spec s now with ⟨next, hh, hr, heq⟩ |
        ⟨next, cand, hh, h1, h2, hh2, hr2, heq⟩ | ⟨hn, hs⟩
      · rw [heq] at hX ⊢
        obtain rfl : next = X := by simpa using hX
        exact hnd.not_mem_erase
      · rw [heq] at hX ⊢
        obtain rfl : cand = X := by simpa using hX
        exact (hnd.erase _).not_mem_erase
      · rw [hX] at hn; cases hn
    exact (fill_neg_result audio2 rate2 hnotin).1
  · obtain ⟨hres, hids, hlen⟩ := fill_pos_result audio rate hid
    refine ⟨hres, hids, hlen, ?_⟩
    exact (fill_pos_result audio2 rate2 (hids ▸ hid)).1

/-- C7, witness: the amended semantics at a queue with one reservation. -/
theorem c7_fill_witness :
    ((c7demo_q.fill 1 [5] 24000).1 = { filled := true, error := none } ∧
      (c7demo_q.fill 1 [5] 24000).2.items_by_id = c7demo_q.items_by_id ∧
      (c7demo_q.fill 1 [5] 24000).2.items.length
        = c7demo_q.items.length ∧
      ((c7demo_q.fill 1 [5] 24000).2.fill 1 [6] 24000).1 =
        { filled := true, error := none }) ∧
    (7 ∉ c7demo_q.items_by_id →
      (c7demo_q.fill 7 [5] 24000).1 =
        { filled := false, error := some "Item not found or expired" } ∧
      (c7demo_q.fill 7 [5] 24000).2 = c7demo_q) :=
  ⟨(c7_fill_not_found_semantics c7demo_q 1 [5] [6] 24000 24000 0).2.2
      (by decide),
   (c7_fill_not_found_semantics c7demo_q 7 [5] [6] 24000 24000 0).1⟩

/-- C9, counterexample: two pending reservations made within the same
clock reading (equal priority and reservation_time, hence equal under the
dataclass `__eq__`) but for different projects; `clear(project="b")`
computes the "b" item for removal yet `list.remove` deletes the first
`==`-equal entry — the "a" item — leaving exactly the "b" item queued. -/
theorem c9_clear_counterexample :
    (c9demo.clear (some "b")).1 = 1 ∧
    (c9demo.clear (some "b")).2.items =
      [{ priority := 1, reservation_time := 1000000, audio_data := none,
         sample_rate := 24000, project := "b", item_id := 2 }] := by decide

/-- C9, amended: when no two queued items share the same
`(priority, reservation_time)` comparison key, `clear(project=X)` removes
exactly the items whose project equals X, returns their count, and leaves
the remaining items in their original relative order; `clear(None)`
removes all items and returns their count. -/
theorem c9_clear_exact (s : AudioQueue) (p : String)
    (hkeys : List.Pairwise (fun a b => ¬ sameKey a b) s.items) :
    (s.clear (some p)).2.items =
      (s.items.filter fun it => ¬ it.project = p) ∧
    (s.clear (some p)).1 =
      (s.items.filter fun it => it.project = p).length ∧
    (s.clear none).2.items = [] ∧
    (s.clear none).1 = s.items.length := by
  refine ⟨?_, rfl, rfl, rfl⟩
  have h1 : (s.clear (some p)).2 =
      (s.items.filter fun it => it.project = p).foldl
        (fun st it =>
          { st with items := pyRemove st.items it,
                    items_by_id := st.items_by_id.erase it.item_id }) s :=
    rfl
  rw [h1, clear_foldl_items]
  exact foldl_pyRemove_filter s.items p hkeys

/-- C9, witness: the amended clear law at a queue with two distinct-key
items of different projects. -/
theorem c9_clear_witness :
    (c9demo2.clear (some "a")).2.items =
      (c9demo2.items.filter fun it => ¬ it.project = "a") ∧
    (c9demo2.clear (some "a")).1 =
      (c9demo2.items.filter fun it => it.project = "a").length ∧
    (c9demo2.clear none).2.items = [] ∧
    (c9demo2.clear none).1 = c9demo2.items.length :=
  c9_clear_exact c9demo2 "a" (by decide)

/-- C2, counterexample: a PENDING reservation made at time 0 with a
registered, unset completion event; one worker iteration at t = 31 s
removes it from the queue but leaves its event unset, so a wait on its id
returns `completed = false` — not `completed = true` as the claim
states. -/
theorem c2_expired_event_counterexample :
    (c2demo.playback_step (31 * SECOND)).2.queue.items = [] ∧
    (c2demo.playback_step (31 * SECOND)).2.item_events = [(1, false)] ∧
    (c2demo.playback_step (31 * SECOND)).2.wait_for_item 1 = false := by
  decide

/-- C2, amended: a PENDING item at the head of the scheduling order whose
reservation is older than the 30-second timeout is removed from the queue
by the worker iteration, but its completion event is NOT signaled: the
event stays registered and unset, so a wait on the item blocks until its
own timeout (`completed = false` in the sequential model) instead of
returning `completed = true`. -/
theorem c2_expired_removed_event_unsignaled (st : AudioManagerService)
    (now : ℤ) (H : QueueItem)
    (hH : sortedHead st.queue.items = some H)
    (hpend : ¬ H.is_ready)
    (hexp : now - H.reservation_time > AudioQueue.RESERVATION_TIMEOUT)
    (hids : (st.queue.items.map QueueItem.item_id).Nodup)
    (hev : st.item_events.lookup H.item_id = some false) :
    H ∉ (st.playback_step now).2.queue.items ∧
    (st.playback_step now).2.item_events.lookup H.item_id = some false ∧
    (st.playback_step now).2.wait_for_item H.item_id = false := by
  obtain ⟨hgone, hne⟩ := sortedHead_pyRemove_gone hH hids
  rcases dequeue_spec st.queue now with ⟨next, hh, hr, heq⟩ |
    ⟨next, cand, hh, hnr, hhe, hh2, hr2, heq⟩ | ⟨hn, hs⟩
  · obtain rfl : next = H := Option.some.inj (hh.symm.trans hH)
    exact absurd hr hpend
  · obtain rfl : H = next := Option.some.inj (hH.symm.trans hh)
    have hcand : cand ∈ pyRemove st.queue.items H := sortedHead_mem hh2
    have hcid : cand.item_id ≠ H.item_id := hne cand hcand
    have hret : (st.queue.dequeue now).1 = some cand := by rw [heq]
    rw [playback_step_some hret]
    dsimp only
    refine ⟨?_, ?_, ?_⟩
    · intro hmem
      rw [heq] at hmem
      exact hgone (pyRemove_subset _ _ H hmem)
    · rw [EventMap.lookup_signal_ne st.item_events fun hc => hcid hc.symm]
      exact hev
    · unfold AudioManagerService.wait_for_item
      dsimp only
      rw [EventMap.lookup_signal_ne st.item_events fun hc => hcid hc.symm,
        hev]
  · rcases hs with ⟨hnone, _⟩ | ⟨next, hh, hnr, hne2, _⟩ |
      ⟨next, hh, hnr, hhe, hs⟩
    · rw [hH] at hnone; cases hnone
    · obtain rfl : H = next := Option.some.inj (hH.symm.trans hh)
      exact absurd hexp hne2
    · obtain rfl : H = next := Option.some.inj (hH.symm.trans hh)
      rw [playback_step_none hn]
      dsimp only
      refine ⟨?_, hev, ?_⟩
      · intro hmem
        rw [hs] at hmem
        exact hgone hmem
      · unfold AudioManagerService.wait_for_item
        dsimp only
        rw [hev]

/-- C2, witness: the amended behaviour at the concrete one-reservation
service, thirty-one seconds after the reservation. -/
theorem c2_expired_witness :
    c2demo_item ∉ (c2demo.playback_step (31 * SECOND)).2.queue.items ∧
    (c2demo.playback_step (31 * SECOND)).2.item_events.lookup
        c2demo_item.item_id = some false ∧
    (c2demo.playback_step (31 * SECOND)).2.wait_for_item
        c2demo_item.item_id = false :=
  c2_expired_removed_event_unsignaled c2demo (31 * SECOND) c2demo_item
    (by decide) (by decide) (by decide) (by decide) (by decide)

/-- C1: along any serialised history of queue operations with a
nondecreasing wall clock, run from the empty queue, if the played
(dequeued) items at positions i and j have identical priority and the one
at i was reserved strictly earlier, then i comes strictly before j — FIFO
within a priority class holds by reservation time, regardless of the
order the audio was filled. -/
theorem c1_fifo_same_priority (ops : List Op) (t0 : ℤ)
    (hmono : timesMonoFrom t0 ops = true) (A B : QueueItem) (i j : Nat)
    (hA : ((run AudioQueue.init ops).2)[i]? = some A)
    (hB : ((run AudioQueue.init ops).2)[j]? = some B)
    (hpri : A.priority = B.priority)
    (hrt : A.reservation_time < B.reservation_time) : i < j := by
  rcases Nat.lt_trichotomy i j with h | h | h
  · exact h
  · exfalso
    subst h
    rw [hA] at hB
    obtain rfl : A = B := Option.some.inj hB
    exact lt_irrefl _ hrt
  · exact (run_no_inversion hmono (fun Y hY => absurd hY (List.not_mem_nil Y))
      hB hA hpri hrt h).elim

/-- C1, witness: a two-client history where the later reservation is
filled first; the earlier reservation is still played first. -/
theorem c1_fifo_witness :
    timesMonoFrom 0 c1demo_ops = true ∧
    ((run AudioQueue.init c1demo_ops).2)[0]? = some c1demo_A ∧
    ((run AudioQueue.init c1demo_ops).2)[1]? = some c1demo_B ∧
    (0 : Nat) < 1 :=
  ⟨by decide, by decide, by decide,
   c1_fifo_same_priority c1demo_ops 0 (by decide) c1demo_A c1demo_B 0 1
     (by decide) (by decide) (by decide) (by decide)⟩

end VoiceMode
